import Mathlib

/-!
Shallow embedding of `miplib/data/iterators/fourier_ring_iterators.py`
(Python 2 source) and verification of the specification claims about it.

The module defines two classes:

* `FourierRingIterator` — builds a centered Fourier grid over a 2D image
  shape, partitions it into concentric radial bins, and iterates over the
  bins, yielding for each the set of grid coordinates on that ring.
* `SectionedFourierRingIterator` — extends the above with an angular field
  and an angular-sector mask, supporting sequential iteration intersected
  with the cached sector and random access via `__getitem__`.

Python integers are embedded as `ℤ` (Python 2 `/` on integers is floor
division, `Int.fdiv`), numpy float geometry is idealised over `ℝ`, numpy
boolean arrays become `Prop`-valued masks indexed by grid positions, and
`np.where` becomes the set of in-bounds positions where the mask holds.
-/

/-- Python exception outcomes relevant to construction: the `assert` in
`FourierRingIterator.__init__` and the integer division by `2 * d_bin`.
`invalidParameterError` is included to express claims about
`InvalidParameterError`; the source never raises it. -/
inductive PyErr where
  | assertionError : PyErr
  | zeroDivisionError : PyErr
  | invalidParameterError : PyErr
deriving DecidableEq, Repr

instance {ε α : Type} [DecidableEq ε] [DecidableEq α] : DecidableEq (Except ε α) := fun a b =>
  match a, b with
  | .ok x, .ok y =>
      if h : x = y then .isTrue (by rw [h])
      else .isFalse (fun c => by cases c; exact h rfl)
  | .error e, .error f =>
      if h : e = f then .isTrue (by rw [h])
      else .isFalse (fun c => by cases c; exact h rfl)
  | .ok _, .error _ => .isFalse (fun c => by cases c)
  | .error _, .ok _ => .isFalse (fun c => by cases c)

/-- Embedding of `np.arange(-np.floor(n / 2.0), np.ceil(n / 2.0))` for a
nonnegative integer `n`: the list `-⌊n/2⌋, …, ⌈n/2⌉ - 1` of length `n`. -/
def axis (n : ℕ) : List ℤ :=
  (List.range n).map (fun k : ℕ => (k : ℤ) - (n / 2 : ℕ))

/-- Embedding of two-argument `np.meshgrid(a, b)` with its default `xy`
indexing: the outputs have shape `(b.length, a.length)`; the first output
repeats `a` along rows (`A[i][j] = a[j]`) and the second repeats `b` along
columns (`B[i][j] = b[i]`). Out-of-range reads default to `0`; all uses
are guarded by the recorded shape. -/
def meshgrid2 (a b : List ℤ) : (ℕ × ℕ) × (ℕ → ℕ → ℤ) × (ℕ → ℕ → ℤ) :=
  ((b.length, a.length), fun _ j => a.getD j 0, fun i _ => b.getD i 0)

/-- Length of `np.arange(start, stop, step)` over integers:
`max 0 ⌈(stop - start) / step⌉` (empty when `step = 0`; numpy raises
there, but the source only reaches `arange` with `step = d_bin ≠ 0`). -/
def arangeLen (start stop step : ℤ) : ℕ :=
  if 0 < step then ((stop - start + step - 1).fdiv step).toNat
  else if step < 0 then ((start - stop - step - 1).fdiv (-step)).toNat
  else 0

/-- Embedding of `np.arange(start, stop, step)` over integers. -/
def arangeInt (start stop step : ℤ) : List ℤ :=
  (List.range (arangeLen start stop step)).map (fun k : ℕ => start + (k : ℤ) * step)

/-- State of a `FourierRingIterator`: the constructor arguments that
determine the immutable geometry (`shape`, `d_bin`), the derived constants
(`nbins`, `freq_nyq`, `radii`) and the mutable cursor `current_ring`.
The grid, radius field and masks are derived functions of this state. -/
structure FRI where
  shape : ℕ × ℕ
  d_bin : ℤ
  nbins : ℤ
  current_ring : ℤ
  freq_nyq : ℤ
  radii : List ℤ
deriving DecidableEq, Repr

/-- Embedding of `FourierRingIterator.__init__(shape, d_bin)`:
`assert len(shape) == 2`, then `nbins = int(floor(shape[0] / (2 * d_bin)))`
(Python 2 integer floor division; `d_bin = 0` raises `ZeroDivisionError`),
`freq_nyq = int(floor(shape[0] / 2.0))`,
`radii = np.arange(0, freq_nyq, d_bin)`, `current_ring = 0`.
No parameter validation beyond the shape assertion is performed. -/
def mkFRI (shape : List ℕ) (d_bin : ℤ) : Except PyErr FRI :=
  match shape with
  | [h, w] =>
      if d_bin = 0 then .error .zeroDivisionError
      else .ok
        { shape := (h, w)
          d_bin := d_bin
          nbins := Int.fdiv (h : ℤ) (2 * d_bin)
          current_ring := 0
          freq_nyq := ((h : ℤ)).fdiv 2
          radii := arangeInt 0 (((h : ℤ)).fdiv 2) d_bin }
  | _ => .error .assertionError

/-- The meshgrid built in `__init__`:
`y, x = np.meshgrid(arange over shape[0], arange over shape[1])`. -/
def FRI.meshgridYX (s : FRI) : (ℕ × ℕ) × (ℕ → ℕ → ℤ) × (ℕ → ℕ → ℤ) :=
  meshgrid2 (axis s.shape.1) (axis s.shape.2)

/-- The common shape of the meshgrid output arrays `y` and `x`. -/
def FRI.gridShape (s : FRI) : ℕ × ℕ := s.meshgridYX.1

/-- The `y` grid array (first output of `np.meshgrid`). -/
def FRI.Y (s : FRI) (i j : ℕ) : ℤ := s.meshgridYX.2.1 i j

/-- The `x` grid array (second output of `np.meshgrid`). -/
def FRI.X (s : FRI) (i j : ℕ) : ℤ := s.meshgridYX.2.2 i j

/-- Positions of a boolean mask that `np.where` reports: the in-bounds
grid positions at which the mask holds. -/
def whereMask (gs : ℕ × ℕ) (mask : ℕ → ℕ → Prop) : Set (ℕ × ℕ) :=
  { p | p.1 < gs.1 ∧ p.2 < gs.2 ∧ mask p.1 p.2 }

noncomputable section

/-- The radius field `self.r = np.sqrt(x ** 2 + y ** 2)`. -/
def FRI.r (s : FRI) (i j : ℕ) : ℝ :=
  Real.sqrt (((s.X i j : ℝ)) ^ 2 + ((s.Y i j : ℝ)) ^ 2)

end

/-- Embedding of `get_points_on_ring(ring_start, ring_stop)`:
`arr_inf = r >= ring_start`, `arr_sup = r < ring_stop`, elementwise
product (conjunction). -/
def FRI.get_points_on_ring (s : FRI) (ring_start ring_stop : ℝ) (i j : ℕ) : Prop :=
  ring_start ≤ s.r i j ∧ s.r i j < ring_stop

/-- Advancing the cursor: `self.current_ring += 1`. -/
def FRI.advance (s : FRI) : FRI := { s with current_ring := s.current_ring + 1 }

/-- Embedding of `FourierRingIterator.next`: if `current_ring < nbins`,
compute the ring mask for bin `current_ring`, increment the cursor and
return `(np.where(ring), current_ring - 1)` (the pre-increment index)
together with the new state; otherwise raise `StopIteration` (`none`),
leaving the state untouched. -/
def FRI.next (s : FRI) : Option (Set (ℕ × ℕ) × ℤ × FRI) :=
  if s.current_ring < s.nbins then
    some (whereMask s.gridShape
            (s.get_points_on_ring ((s.current_ring * s.d_bin : ℤ) : ℝ)
              (((s.current_ring + 1) * s.d_bin : ℤ) : ℝ)),
          s.current_ring, s.advance)
  else none

noncomputable section

/-- Modelled from the spec: `miplib.processing.converters.degrees_to_radians`
is imported by the iterator module but its source is not under `src/`; the
spec says angle values are "converted to radians", so this is the standard
conversion `x · π / 180`. -/
def degrees_to_radians (x : ℝ) : ℝ := x * Real.pi / 180

/-- Embedding of numpy `arctan2(y, x)` (four-quadrant arctangent, range
`(-π, π]`, with `arctan2(0, 0) = 0`), following its documented case
analysis. -/
def atan2 (y x : ℝ) : ℝ :=
  if 0 < x then Real.arctan (y / x)
  else if x < 0 then
    (if 0 ≤ y then Real.arctan (y / x) + Real.pi else Real.arctan (y / x) - Real.pi)
  else
    (if 0 < y then Real.pi / 2 else if y < 0 then -(Real.pi / 2) else 0)

/-- The angle field built in `SectionedFourierRingIterator.__init__` from
the meshgrid of a base state and the (radian) angle increment:
`phi = arctan2(y, x) + π`, then `phi += d_angle / 2`, then the wraparound
`phi[phi >= 2π] -= 2π`. -/
def phiField (base : FRI) (d_angle : ℝ) (i j : ℕ) : ℝ :=
  if 2 * Real.pi ≤ (atan2 (base.Y i j : ℝ) (base.X i j : ℝ) + Real.pi) + d_angle / 2 then
    ((atan2 (base.Y i j : ℝ) (base.X i j : ℝ) + Real.pi) + d_angle / 2) - 2 * Real.pi
  else (atan2 (base.Y i j : ℝ) (base.X i j : ℝ) + Real.pi) + d_angle / 2

end

/-- Embedding of `get_angle_sector(phi_min, phi_max)` as a function of the
geometry that determines `self.phi`:
`(phi >= phi_min) * (phi < phi_max) + (phi >= phi_min + π) * (phi < phi_max + π)`
(elementwise product is conjunction, sum of booleans is disjunction). -/
def angleSectorFun (base : FRI) (d_angle phi_min phi_max : ℝ) (i j : ℕ) : Prop :=
  (phi_min ≤ phiField base d_angle i j ∧ phiField base d_angle i j < phi_max) ∨
  (phi_min + Real.pi ≤ phiField base d_angle i j ∧
    phiField base d_angle i j < phi_max + Real.pi)

/-- State of a `SectionedFourierRingIterator`: the base iterator state plus
the radian angle increment `d_angle`, the internal current angle `_angle`
(radians) and the cached angular-sector mask `angle_sector`. -/
structure SFRI extends FRI where
  d_angle : ℝ
  _angle : ℝ
  angle_sector : ℕ → ℕ → Prop

noncomputable section

/-- Embedding of `SectionedFourierRingIterator.__init__(shape, d_bin, d_angle)`:
runs the base constructor, converts `d_angle` from degrees to radians,
builds the angle field, sets `_angle = 0` and caches
`angle_sector = get_angle_sector(0, d_bin)` — the second argument is the
ring thickness `d_bin`, not the angle increment. -/
def mkSFRI (shape : List ℕ) (d_bin : ℤ) (d_angle : ℝ) : Except PyErr SFRI :=
  match mkFRI shape d_bin with
  | .error e => .error e
  | .ok base =>
      .ok { toFRI := base
            d_angle := degrees_to_radians d_angle
            _angle := 0
            angle_sector :=
              angleSectorFun base (degrees_to_radians d_angle) 0 ((d_bin : ℤ) : ℝ) }

/-- The angle field of a constructed sectioned iterator. -/
def SFRI.phi (s : SFRI) (i j : ℕ) : ℝ := phiField s.toFRI s.d_angle i j

/-- Method form of `get_angle_sector` on a sectioned state. -/
def SFRI.get_angle_sector (s : SFRI) (phi_min phi_max : ℝ) (i j : ℕ) : Prop :=
  angleSectorFun s.toFRI s.d_angle phi_min phi_max i j

/-- Embedding of the `angle` property getter: returns `self._angle`, the
internal radian value. -/
def SFRI.angle (s : SFRI) : ℝ := s._angle

/-- Embedding of the `angle` property setter: converts the supplied degree
value to radians, stores it in `_angle` and recomputes the cached mask as
`get_angle_sector(angle, angle + d_angle)`. -/
def SFRI.setAngle (s : SFRI) (value : ℝ) : SFRI :=
  { s with
    _angle := degrees_to_radians value
    angle_sector :=
      angleSectorFun s.toFRI s.d_angle (degrees_to_radians value)
        (degrees_to_radians value + s.d_angle) }

/-- Embedding of `SectionedFourierRingIterator.__getitem__` with argument
tuple `(ring_start, ring_stop, angle_min, angle_max)`: intersects
`get_points_on_ring(ring_start, ring_stop)` with
`get_angle_sector(angle_min, angle_max)` — the angle arguments are passed
through unconverted — and returns `np.where` of the product, paired with
the (unchanged) state to make the absence of mutation explicit. -/
def SFRI.getitem (s : SFRI) (args : ℝ × ℝ × ℝ × ℝ) : Set (ℕ × ℕ) × SFRI :=
  (whereMask s.gridShape
    (fun i j => s.get_points_on_ring args.1 args.2.1 i j ∧
      s.get_angle_sector args.2.2.1 args.2.2.2 i j), s)

/-- Follows the spec's words, not the source (for comparison with
`SFRI.getitem`): `query(ringStart, ringStop, angleMin, angleMax)` with the
angle bounds "supplied in degrees at this boundary; internally converted to
radians with the same convention as `angleSector`". -/
def SFRI.querySpec (s : SFRI) (args : ℝ × ℝ × ℝ × ℝ) : Set (ℕ × ℕ) × SFRI :=
  (whereMask s.gridShape
    (fun i j => s.get_points_on_ring args.1 args.2.1 i j ∧
      s.get_angle_sector (degrees_to_radians args.2.2.1)
        (degrees_to_radians args.2.2.2) i j), s)

/-- Embedding of `SectionedFourierRingIterator.next`: as the base `next`,
but the emitted mask is the elementwise product of the ring mask with the
cached `angle_sector`. -/
def SFRI.next (s : SFRI) : Option (Set (ℕ × ℕ) × ℤ × SFRI) :=
  if s.current_ring < s.nbins then
    some (whereMask s.gridShape
            (fun i j =>
              s.get_points_on_ring ((s.current_ring * s.d_bin : ℤ) : ℝ)
                (((s.current_ring + 1) * s.d_bin : ℤ) : ℝ) i j ∧
              s.angle_sector i j),
          s.current_ring,
          { s with current_ring := s.current_ring + 1 })
  else none

/-- Advancing the cursor of a sectioned state. -/
def SFRI.advance (s : SFRI) : SFRI := { s with current_ring := s.current_ring + 1 }

end

/-- The base iterator built by `FourierRingIterator((4, 4), 1)`. -/
def fri44 : FRI :=
  { shape := (4, 4), d_bin := 1, nbins := 2, current_ring := 0,
    freq_nyq := 2, radii := [0, 1] }

/-- The base iterator built by `FourierRingIterator((6, 6), 2)`. -/
def fri66 : FRI :=
  { shape := (6, 6), d_bin := 2, nbins := 1, current_ring := 0,
    freq_nyq := 3, radii := [0, 2] }

/-- The base iterator built by `FourierRingIterator((2, 4), 1)` (a
non-square shape). -/
def fri24 : FRI :=
  { shape := (2, 4), d_bin := 1, nbins := 1, current_ring := 0,
    freq_nyq := 1, radii := [0] }

/-- The state produced by `FourierRingIterator((4, 4), -1)`: construction
succeeds with a negative `d_bin` (no parameter validation), leaving a
negative `nbins` and an empty `radii`. -/
def fri44neg : FRI :=
  { shape := (4, 4), d_bin := -1, nbins := -2, current_ring := 0,
    freq_nyq := 2, radii := [] }

/-- The base iterator built by `FourierRingIterator((8, 8), 1)`. -/
def fri88 : FRI :=
  { shape := (8, 8), d_bin := 1, nbins := 4, current_ring := 0,
    freq_nyq := 4, radii := [0, 1, 2, 3] }

example : mkFRI [4, 4] 1 = .ok fri44 := by decide
example : mkFRI [6, 6] 2 = .ok fri66 := by decide
example : mkFRI [2, 4] 1 = .ok fri24 := by decide
example : mkFRI [8, 8] 1 = .ok fri88 := by decide
example : mkFRI [4, 4, 4] 1 = .error .assertionError := by decide
example : axis 4 = [-2, -1, 0, 1] := by decide
example : axis 5 = [-2, -1, 0, 1, 2] := by decide

noncomputable section

/-- The sectioned iterator built by
`SectionedFourierRingIterator((4, 4), 1, 90)`. -/
def sfri44_90 : SFRI :=
  { toFRI := fri44
    d_angle := degrees_to_radians 90
    _angle := 0
    angle_sector := angleSectorFun fri44 (degrees_to_radians 90) 0 (((1 : ℤ)) : ℝ) }

/-- The sectioned iterator built by
`SectionedFourierRingIterator((4, 4), 1, 360)`. -/
def sfri44_360 : SFRI :=
  { toFRI := fri44
    d_angle := degrees_to_radians 360
    _angle := 0
    angle_sector := angleSectorFun fri44 (degrees_to_radians 360) 0 (((1 : ℤ)) : ℝ) }

end

example : mkSFRI [4, 4] 1 90 = .ok sfri44_90 := rfl
example : mkSFRI [4, 4] 1 360 = .ok sfri44_360 := rfl

theorem d2r_zero : degrees_to_radians 0 = 0 := by
  unfold degrees_to_radians; ring

theorem d2r_90 : degrees_to_radians 90 = Real.pi / 2 := by
  unfold degrees_to_radians; ring

theorem d2r_360 : degrees_to_radians 360 = 2 * Real.pi := by
  unfold degrees_to_radians; ring

theorem atan2_zero_zero : atan2 0 0 = 0 := by
  simp [atan2]

theorem atan2_one_zero : atan2 1 0 = Real.pi / 2 := by
  simp [atan2]

theorem atan2_one_one : atan2 1 1 = Real.pi / 4 := by
  simp [atan2, Real.arctan_one]

theorem r44_23 : fri44.r 2 3 = 1 := by
  have hX : fri44.X 2 3 = 0 := by decide
  have hY : fri44.Y 2 3 = 1 := by decide
  norm_num [FRI.r, hX, hY]

theorem r44_22 : fri44.r 2 2 = 0 := by
  have hX : fri44.X 2 2 = 0 := by decide
  have hY : fri44.Y 2 2 = 0 := by decide
  norm_num [FRI.r, hX, hY]

theorem r24_21 : fri24.r 2 1 = 0 := by
  have hX : fri24.X 2 1 = 0 := by decide
  have hY : fri24.Y 2 1 = 0 := by decide
  norm_num [FRI.r, hX, hY]

theorem phi44_90_23 : phiField fri44 (degrees_to_radians 90) 2 3 = 7 * Real.pi / 4 := by
  have hX : fri44.X 2 3 = 0 := by decide
  have hY : fri44.Y 2 3 = 1 := by decide
  have hpi := Real.pi_pos
  simp only [phiField, hX, hY, d2r_90, Int.cast_zero, Int.cast_one, atan2_one_zero]
  rw [if_neg (by intro hc; nlinarith)]
  ring

theorem phi44_360_23 : phiField fri44 (degrees_to_radians 360) 2 3 = Real.pi / 2 := by
  have hX : fri44.X 2 3 = 0 := by decide
  have hY : fri44.Y 2 3 = 1 := by decide
  have hpi := Real.pi_pos
  simp only [phiField, hX, hY, d2r_360, Int.cast_zero, Int.cast_one, atan2_one_zero]
  rw [if_pos (by nlinarith)]
  ring

theorem phi44_90_33 : phiField fri44 (degrees_to_radians 90) 3 3 = 3 * Real.pi / 2 := by
  have hX : fri44.X 3 3 = 1 := by decide
  have hY : fri44.Y 3 3 = 1 := by decide
  have hpi := Real.pi_pos
  simp only [phiField, hX, hY, d2r_90, Int.cast_one, atan2_one_one]
  rw [if_neg (by intro hc; nlinarith)]
  ring

theorem advance_iterate (s : FRI) (n : ℕ) :
    (FRI.advance^[n] s).current_ring = s.current_ring + n ∧
    (FRI.advance^[n] s).nbins = s.nbins ∧
    (FRI.advance^[n] s).d_bin = s.d_bin ∧
    (FRI.advance^[n] s).shape = s.shape := by
  induction n with
  | zero => simp
  | succ n ih =>
      rw [Function.iterate_succ_apply']
      refine ⟨?_, ?_, ?_, ?_⟩
      · simp only [FRI.advance, ih.1]; push_cast; ring
      · simp only [FRI.advance, ih.2.1]
      · simp only [FRI.advance, ih.2.2.1]
      · simp only [FRI.advance, ih.2.2.2]

theorem sadvance_iterate (s : SFRI) (n : ℕ) :
    (SFRI.advance^[n] s).current_ring = s.current_ring + n ∧
    (SFRI.advance^[n] s).nbins = s.nbins ∧
    (SFRI.advance^[n] s).d_bin = s.d_bin ∧
    (SFRI.advance^[n] s).shape = s.shape ∧
    (SFRI.advance^[n] s).angle_sector = s.angle_sector ∧
    (SFRI.advance^[n] s).d_angle = s.d_angle ∧
    (SFRI.advance^[n] s)._angle = s._angle := by
  induction n with
  | zero => simp
  | succ n ih =>
      rw [Function.iterate_succ_apply']
      refine ⟨?_, ?_, ?_, ?_, ?_, ?_, ?_⟩
      · simp only [SFRI.advance, ih.1]; push_cast; ring
      · simp only [SFRI.advance, ih.2.1]
      · simp only [SFRI.advance, ih.2.2.1]
      · simp only [SFRI.advance, ih.2.2.2.1]
      · simp only [SFRI.advance, ih.2.2.2.2.1]
      · simp only [SFRI.advance, ih.2.2.2.2.2.1]
      · simp only [SFRI.advance, ih.2.2.2.2.2.2]

theorem gridShape_congr (s t : FRI) (h : s.shape = t.shape) :
    s.gridShape = t.gridShape := by
  simp [FRI.gridShape, FRI.meshgridYX, h]

theorem r_congr (s t : FRI) (h : s.shape = t.shape) : s.r = t.r := by
  funext i j
  simp [FRI.r, FRI.X, FRI.Y, FRI.meshgridYX, h]

theorem get_points_congr (s t : FRI) (h : s.shape = t.shape) (a b : ℝ) :
    s.get_points_on_ring a b = t.get_points_on_ring a b := by
  funext i j
  simp [FRI.get_points_on_ring, r_congr s t h]

theorem phi44_360_33 : phiField fri44 (degrees_to_radians 360) 3 3 = Real.pi / 4 := by
  have hX : fri44.X 3 3 = 1 := by decide
  have hY : fri44.Y 3 3 = 1 := by decide
  have hpi := Real.pi_pos
  simp only [phiField, hX, hY, d2r_360, Int.cast_one, atan2_one_one]
  rw [if_pos (by nlinarith)]
  ring



/-- Claim C5: for every constructed iterator (both variants, with the
invariant hypothesis `d_bin >= 1` from the claim), the cursor state
machine holds: the fresh cursor is `0` and `nbins` is nonnegative;
`0 <= current_ring <= nbins` along the whole run; each step with
`current_ring = n < nbins` emits the n-th bin's coordinate set paired with
ring index `n` (strictly increasing from 0) and moves the cursor to
`n + 1`; after `nbins` steps the iterator is exhausted, and any state with
`current_ring >= nbins` is terminal: `next` signals exhaustion and
produces no transition out of it. -/
theorem frc_C5 (shape : List ℕ) (d : ℤ) (a : ℝ) (s : FRI) (s2 : SFRI)
    (hd : 1 ≤ d) (hmk : mkFRI shape d = .ok s) (hmk2 : mkSFRI shape d a = .ok s2) :
    s.current_ring = 0 ∧ s2.current_ring = 0 ∧ 0 ≤ s.nbins ∧ s2.nbins = s.nbins ∧
    (∀ n : ℕ, 0 ≤ (FRI.advance^[n] s).current_ring ∧
      ((n : ℤ) ≤ s.nbins →
        (FRI.advance^[n] s).current_ring ≤ (FRI.advance^[n] s).nbins)) ∧
    (∀ n : ℕ, 0 ≤ (SFRI.advance^[n] s2).current_ring ∧
      ((n : ℤ) ≤ s2.nbins →
        (SFRI.advance^[n] s2).current_ring ≤ (SFRI.advance^[n] s2).nbins)) ∧
    (∀ n : ℕ, (n : ℤ) < s.nbins →
      (FRI.advance^[n] s).next =
        some (whereMask s.gridShape
                (s.get_points_on_ring ((((n : ℤ) * d : ℤ)) : ℝ)
                  (((((n : ℤ) + 1) * d : ℤ)) : ℝ)),
              (n : ℤ), FRI.advance^[n + 1] s)) ∧
    (FRI.advance^[s.nbins.toNat] s).next = none ∧
    (∀ t : FRI, t.nbins ≤ t.current_ring → t.next = none) ∧
    (∀ n : ℕ, (n : ℤ) < s2.nbins →
      (SFRI.advance^[n] s2).next =
        some (whereMask s2.gridShape
                (fun i j => s2.get_points_on_ring ((((n : ℤ) * d : ℤ)) : ℝ)
                    (((((n : ℤ) + 1) * d : ℤ)) : ℝ) i j ∧ s2.angle_sector i j),
              (n : ℤ), SFRI.advance^[n + 1] s2)) ∧
    (SFRI.advance^[s2.nbins.toNat] s2).next = none ∧
    (∀ t : SFRI, t.nbins ≤ t.current_ring → t.next = none) := by
  have hd0 : ¬ d = 0 := by omega
  have hterm : ∀ t : FRI, t.nbins ≤ t.current_ring → t.next = none := by
    intro t ht
    simp only [FRI.next]
    rw [if_neg (not_lt.mpr ht)]
  have hterm2 : ∀ t : SFRI, t.nbins ≤ t.current_ring → t.next = none := by
    intro t ht
    simp only [SFRI.next]
    rw [if_neg (not_lt.mpr ht)]
  rcases shape with _ | ⟨h0, tl⟩
  · exact absurd hmk (by simp [mkFRI])
  rcases tl with _ | ⟨w0, tl2⟩
  · exact absurd hmk (by simp [mkFRI])
  rcases tl2 with _ | ⟨z, tl3⟩
  swap
  · exact absurd hmk (by simp [mkFRI])
  set base : FRI :=
    { shape := (h0, w0)
      d_bin := d
      nbins := Int.fdiv (h0 : ℤ) (2 * d)
      current_ring := 0
      freq_nyq := ((h0 : ℤ)).fdiv 2
      radii := arangeInt 0 (((h0 : ℤ)).fdiv 2) d } with hbase
  have hok : mkFRI [h0, w0] d = .ok base := by
    simp only [mkFRI]
    rw [if_neg hd0]
  have hs : base = s := by
    rw [hok] at hmk
    exact Except.ok.inj hmk
  subst hs
  set sb : SFRI :=
    { toFRI := base
      d_angle := degrees_to_radians a
      _angle := 0
      angle_sector := angleSectorFun base (degrees_to_radians a) 0 ((d : ℤ) : ℝ) } with hsb
  have hok2 : mkSFRI [h0, w0] d a = .ok sb := by
    simp only [mkSFRI]
    rw [hok]
  have hs2 : sb = s2 := by
    rw [hok2] at hmk2
    exact Except.ok.inj hmk2
  subst hs2
  have hnb : 0 ≤ base.nbins := Int.fdiv_nonneg (by positivity) (by omega)
  refine ⟨rfl, rfl, hnb, rfl, ?_, ?_, ?_, ?_, hterm, ?_, ?_, hterm2⟩
  · intro n
    have hit := advance_iterate base n
    constructor
    · rw [hit.1]; positivity
    · intro hn
      rw [hit.1, hit.2.1]
      simpa using hn
  · intro n
    have hit := sadvance_iterate sb n
    constructor
    · rw [hit.1]; simp only [hsb]; positivity
    · intro hn
      rw [hit.1, hit.2.1]
      simp only [hsb]
      simpa using hn
  · intro n hn
    have hit := advance_iterate base n
    have hcr : (FRI.advance^[n] base).current_ring = (n : ℤ) := by
      rw [hit.1]; simp
    simp only [FRI.next]
    rw [if_pos (by rw [hcr, hit.2.1]; exact hn)]
    rw [hcr, hit.2.2.1,
      gridShape_congr (FRI.advance^[n] base) base hit.2.2.2,
      get_points_congr (FRI.advance^[n] base) base hit.2.2.2,
      Function.iterate_succ_apply']
  · have hit := advance_iterate base base.nbins.toNat
    apply hterm
    rw [hit.1, hit.2.1]
    simp [Int.toNat_of_nonneg hnb]
  · intro n hn
    have hit := sadvance_iterate sb n
    set t2 := SFRI.advance^[n] sb with ht2
    have hcr : t2.current_ring = (n : ℤ) := by
      rw [hit.1]; simp [hsb]
    simp only [SFRI.next]
    rw [if_pos (by rw [hcr, hit.2.1]; exact hn)]
    simp only [Option.some.injEq, Prod.mk.injEq]
    refine ⟨?_, hcr, ?_⟩
    · have hm : (fun i j => t2.get_points_on_ring ((t2.current_ring * t2.d_bin : ℤ) : ℝ)
          (((t2.current_ring + 1) * t2.d_bin : ℤ) : ℝ) i j ∧ t2.angle_sector i j) =
          (fun i j => sb.get_points_on_ring ((((n : ℤ) * d : ℤ)) : ℝ)
            (((((n : ℤ) + 1) * d : ℤ)) : ℝ) i j ∧ sb.angle_sector i j) := by
        funext i j
        rw [hcr, hit.2.2.1, get_points_congr t2.toFRI sb.toFRI hit.2.2.2.1,
          hit.2.2.2.2.1]
      rw [hm, gridShape_congr t2.toFRI sb.toFRI hit.2.2.2.1]
    · rw [Function.iterate_succ_apply', ← ht2]
      rfl
  · have hit := sadvance_iterate sb sb.nbins.toNat
    apply hterm2
    rw [hit.1, hit.2.1]
    simp [hsb, Int.toNat_of_nonneg hnb]

/-- Witness for C5 at `shape = (4, 4)`, `d_bin = 1`, `d_angle = 90`. -/
theorem frc_C5_witness :
    (1 : ℤ) ≤ 1 ∧ mkFRI [4, 4] 1 = .ok fri44 ∧ mkSFRI [4, 4] 1 90 = .ok sfri44_90 ∧
    fri44.current_ring = 0 ∧ sfri44_90.current_ring = 0 ∧
    (FRI.advance^[fri44.nbins.toNat] fri44).next = none ∧
    (SFRI.advance^[sfri44_90.nbins.toNat] sfri44_90).next = none := by
  have h := frc_C5 [4, 4] 1 90 fri44 sfri44_90 (by decide) (by decide) rfl
  exact ⟨by decide, by decide, rfl, h.1, h.2.1, h.2.2.2.2.2.2.2.1,
    h.2.2.2.2.2.2.2.2.2.2.1⟩

theorem range_map_getD (f : ℕ → ℤ) (n j : ℕ) (hj : j < n) :
    ((List.range n).map f).getD j 0 = f j := by
  rw [List.getD_eq_getElem _ _ (by simpa using hj), List.getElem_map,
    List.getElem_range]

theorem axis_getD (n j : ℕ) (hj : j < n) :
    (axis n).getD j 0 = (j : ℤ) - ((n / 2 : ℕ) : ℤ) := by
  unfold axis
  exact range_map_getD _ n j hj

/-- Claim C6: `get_points_on_ring(ringStart, ringStop)` holds at a pixel
exactly when `ringStart <= R < ringStop` (inclusive-low, exclusive-high),
and for `d_bin >= 1` the ring masks of two distinct bin indices are
disjoint at every pixel. -/
theorem frc_C6 (s : FRI) :
    (∀ a b : ℝ, ∀ i j : ℕ,
      (s.get_points_on_ring a b i j ↔ a ≤ s.r i j ∧ s.r i j < b)) ∧
    (∀ k k' : ℤ, 1 ≤ s.d_bin → k ≠ k' → ∀ i j : ℕ,
      ¬ (s.get_points_on_ring (((k * s.d_bin : ℤ)) : ℝ)
           ((((k + 1) * s.d_bin : ℤ)) : ℝ) i j ∧
         s.get_points_on_ring (((k' * s.d_bin : ℤ)) : ℝ)
           ((((k' + 1) * s.d_bin : ℤ)) : ℝ) i j)) := by
  constructor
  · intro a b i j
    exact Iff.rfl
  · intro k k' hd hkk i j hc
    obtain ⟨⟨h1, h2⟩, h3, h4⟩ := hc
    rcases lt_or_gt_of_ne hkk with hlt | hlt
    · have hle : (k + 1) * s.d_bin ≤ k' * s.d_bin :=
        mul_le_mul_of_nonneg_right (by omega) (by omega)
      have hcast : ((((k + 1) * s.d_bin : ℤ)) : ℝ) ≤ (((k' * s.d_bin : ℤ)) : ℝ) := by
        exact_mod_cast hle
      linarith
    · have hle : (k' + 1) * s.d_bin ≤ k * s.d_bin :=
        mul_le_mul_of_nonneg_right (by omega) (by omega)
      have hcast : ((((k' + 1) * s.d_bin : ℤ)) : ℝ) ≤ (((k * s.d_bin : ℤ)) : ℝ) := by
        exact_mod_cast hle
      linarith

/-- Witness for C6: the ring-0 and ring-1 masks of the `(4, 4)`, `d_bin = 1`
iterator are disjoint at pixel `(2, 3)`. -/
theorem frc_C6_witness :
    (1 : ℤ) ≤ fri44.d_bin ∧ (0 : ℤ) ≠ 1 ∧
    ¬ (fri44.get_points_on_ring ((((0 : ℤ) * fri44.d_bin : ℤ)) : ℝ)
         (((((0 : ℤ) + 1) * fri44.d_bin : ℤ)) : ℝ) 2 3 ∧
       fri44.get_points_on_ring ((((1 : ℤ) * fri44.d_bin : ℤ)) : ℝ)
         (((((1 : ℤ) + 1) * fri44.d_bin : ℤ)) : ℝ) 2 3) :=
  ⟨by decide, by decide, (frc_C6 fri44).2 0 1 (by decide) (by decide) 2 3⟩

/-- Claim C9: `__getitem__` (the random-access query) is pure: it returns
the state unchanged, repeating it with identical arguments yields the same
coordinate set, and `current_ring`, `_angle` and the cached `angle_sector`
are untouched. -/
theorem frc_C9 (s : SFRI) (args : ℝ × ℝ × ℝ × ℝ) :
    (s.getitem args).2 = s ∧
    ((s.getitem args).2.getitem args).1 = (s.getitem args).1 ∧
    (s.getitem args).2.current_ring = s.current_ring ∧
    (s.getitem args).2._angle = s._angle ∧
    (s.getitem args).2.angle_sector = s.angle_sector :=
  ⟨rfl, rfl, rfl, rfl, rfl⟩

/-- Claim C8 (amended): the `angle` property setter takes degrees, converts
them to radians, stores the radian value in `_angle` and recomputes the
cached sector mask for `[angle, angle + d_angle)`; the getter returns the
internal radian value, so a set-then-get round trip returns
`x * π / 180`, not `x`. -/
theorem frc_C8 (s : SFRI) (x : ℝ) :
    (s.setAngle x).angle = degrees_to_radians x ∧
    (s.setAngle x)._angle = degrees_to_radians x ∧
    (s.setAngle x).angle_sector =
      angleSectorFun s.toFRI s.d_angle (degrees_to_radians x)
        (degrees_to_radians x + s.d_angle) ∧
    (s.setAngle x).d_angle = s.d_angle ∧
    (s.setAngle x).toFRI = s.toFRI :=
  ⟨rfl, rfl, rfl, rfl, rfl⟩

/-- Counterexample for C8 as stated: setting the current angle of the
`(4, 4)`, `d_bin = 1`, `d_angle = 90` iterator to 90 degrees and reading
the property back does not return 90 (it returns `π/2`). -/
theorem frc_C8_cex : (sfri44_90.setAngle 90).angle ≠ 90 := by
  have h1 : (sfri44_90.setAngle 90).angle = Real.pi / 2 := by
    simp [SFRI.setAngle, SFRI.angle, d2r_90]
  rw [h1]
  intro hc
  nlinarith [Real.pi_lt_four]

/-- Claim C4 (amended): construction performs no `d_bin`/`d_angle`
validation; neither constructor ever raises `InvalidParameterError`, and
`d_bin = 0` instead raises `ZeroDivisionError` (from the integer division
in `nbins`). -/
theorem frc_C4 :
    (∀ shape : List ℕ, ∀ d : ℤ, mkFRI shape d ≠ .error .invalidParameterError) ∧
    (∀ shape : List ℕ, ∀ d : ℤ, ∀ a : ℝ,
      mkSFRI shape d a ≠ .error .invalidParameterError) ∧
    (∀ h w : ℕ, mkFRI [h, w] 0 = .error .zeroDivisionError) ∧
    (∀ h w : ℕ, ∀ a : ℝ, mkSFRI [h, w] 0 a = .error .zeroDivisionError) := by
  have hbase : ∀ (shape : List ℕ) (d : ℤ),
      mkFRI shape d ≠ .error .invalidParameterError := by
    intro shape d
    rcases shape with _ | ⟨h0, _ | ⟨w0, _ | ⟨z, tl⟩⟩⟩
    · simp [mkFRI]
    · simp [mkFRI]
    · simp only [mkFRI]
      split <;> simp
    · simp [mkFRI]
  have hzero : ∀ h w : ℕ, mkFRI [h, w] 0 = .error .zeroDivisionError := by
    intro h w
    simp [mkFRI]
  refine ⟨hbase, ?_, hzero, ?_⟩
  · intro shape d a hc
    unfold mkSFRI at hc
    cases hm : mkFRI shape d with
    | error e =>
        rw [hm] at hc
        simp only [Except.error.injEq] at hc
        exact hbase shape d (by rw [hm, hc])
    | ok b =>
        rw [hm] at hc
        simp at hc
  · intro h w a
    unfold mkSFRI
    rw [hzero h w]

/-- Counterexample for C4 as stated: constructing with `d_bin = -1` (and,
for the sectioned variant, `d_angle = -5`) succeeds instead of failing
with an `InvalidParameterError`. -/
theorem frc_C4_cex :
    mkFRI [4, 4] (-1) = .ok fri44neg ∧
    (∃ s2 : SFRI, mkSFRI [4, 4] (-1) (-5) = .ok s2) := by
  refine ⟨by decide, ⟨_, rfl⟩⟩

/-- Claim C7 (amended): `nbins = floor(shape[0] / (2 * d_bin))` holds
exactly, but the radii sequence `np.arange(0, nyquist, d_bin)` has length
`ceil(nyquist / d_bin)` (with `nyquist = floor(shape[0] / 2)`), which
equals `nbins` for `d_bin = 1` but not for every `d_bin >= 1`. -/
theorem frc_C7 (h w : ℕ) (d : ℤ) (s : FRI) (hd : 1 ≤ d)
    (hmk : mkFRI [h, w] d = .ok s) :
    s.nbins = Int.fdiv (h : ℤ) (2 * d) ∧
    s.freq_nyq = ((h : ℤ)).fdiv 2 ∧
    s.radii = arangeInt 0 (((h : ℤ)).fdiv 2) d ∧
    s.radii.length = (((((h : ℤ)).fdiv 2) + d - 1).fdiv d).toNat ∧
    (d = 1 → (s.radii.length : ℤ) = s.nbins) := by
  have hd0 : ¬ d = 0 := by omega
  have hs : s =
      { shape := (h, w)
        d_bin := d
        nbins := Int.fdiv (h : ℤ) (2 * d)
        current_ring := 0
        freq_nyq := ((h : ℤ)).fdiv 2
        radii := arangeInt 0 (((h : ℤ)).fdiv 2) d } := by
    simp only [mkFRI] at hmk
    rw [if_neg hd0] at hmk
    exact (Except.ok.inj hmk).symm
  subst hs
  refine ⟨rfl, rfl, rfl, ?_, ?_⟩
  · simp only [arangeInt, arangeLen, List.length_map, List.length_range]
    rw [if_pos (by omega : (0 : ℤ) < d)]
    norm_num
  · intro hd1
    subst hd1
    simp only [arangeInt, arangeLen, List.length_map, List.length_range]
    rw [if_pos (by omega : (0 : ℤ) < 1)]
    have hnn : 0 ≤ ((h : ℤ)).fdiv 2 := Int.fdiv_nonneg (by positivity) (by omega)
    have he : ((h : ℤ)).fdiv 2 - 0 + 1 - 1 = ((h : ℤ)).fdiv 2 := by ring
    rw [he, Int.fdiv_one, Int.toNat_of_nonneg hnn]
    norm_num

/-- Witness for C7 at `shape = (8, 8)`, `d_bin = 1`, where the radii
length does agree with `nbins`. -/
theorem frc_C7_witness :
    (1 : ℤ) ≤ 1 ∧ mkFRI [8, 8] 1 = .ok fri88 ∧
    fri88.radii.length = ((((((8 : ℕ) : ℤ)).fdiv 2) + 1 - 1).fdiv 1).toNat ∧
    ((1 : ℤ) = 1 → (fri88.radii.length : ℤ) = fri88.nbins) :=
  ⟨by decide, by decide, (frc_C7 8 8 1 fri88 (by decide) (by decide)).2.2.2.1,
    (frc_C7 8 8 1 fri88 (by decide) (by decide)).2.2.2.2⟩

/-- Counterexample for C7 as stated: for `shape = (6, 6)`, `d_bin = 2`
the radii sequence `[0, 2]` has length 2 while `nbins = 1`. -/
theorem frc_C7_cex :
    mkFRI [6, 6] 2 = .ok fri66 ∧ fri66.radii.length = 2 ∧ fri66.nbins = 1 ∧
    ¬ ((fri66.radii.length : ℤ) = fri66.nbins) := by decide

/-- Claim C3 (amended): because `np.meshgrid` defaults to `xy` indexing,
the grid arrays `Y` and `X` have shape `(shape[1], shape[0])` — the
transpose of the image shape — with `Y[i, j]` holding the centered axis-0
coordinate of `j` and `X[i, j]` the centered axis-1 coordinate of `i`;
only for square shapes does the grid shape coincide with the image shape,
and then every coordinate pair emitted by an iteration step is a valid
index into an array of the image shape. -/
theorem frc_C3 (h w : ℕ) (d : ℤ) (s : FRI) (hmk : mkFRI [h, w] d = .ok s) :
    s.gridShape = (w, h) ∧
    (∀ i j : ℕ, i < w → j < h →
      s.Y i j = (j : ℤ) - ((h / 2 : ℕ) : ℤ) ∧
      s.X i j = (i : ℤ) - ((w / 2 : ℕ) : ℤ)) ∧
    (h = w →
      s.gridShape = (h, w) ∧
      (∀ n : ℕ, ∀ out : Set (ℕ × ℕ), ∀ k : ℤ, ∀ t : FRI,
        (FRI.advance^[n] s).next = some (out, k, t) →
        ∀ p : ℕ × ℕ, p ∈ out → p.1 < h ∧ p.2 < w)) := by
  have hshape : s.shape = (h, w) := by
    simp only [mkFRI] at hmk
    by_cases hd0 : d = 0
    · rw [if_pos hd0] at hmk
      cases hmk
    · rw [if_neg hd0] at hmk
      rw [← Except.ok.inj hmk]
  have hgs : s.gridShape = (w, h) := by
    simp [FRI.gridShape, FRI.meshgridYX, meshgrid2, hshape, axis]
  refine ⟨hgs, ?_, ?_⟩
  · intro i j hi hj
    constructor
    · simp only [FRI.Y, FRI.meshgridYX, meshgrid2, hshape]
      exact axis_getD h j hj
    · simp only [FRI.X, FRI.meshgridYX, meshgrid2, hshape]
      exact axis_getD w i hi
  · intro hsq
    subst hsq
    refine ⟨hgs, ?_⟩
    intro n out k t hnext p hp
    have hsh : (FRI.advance^[n] s).shape = s.shape := (advance_iterate s n).2.2.2
    have hgs2 : (FRI.advance^[n] s).gridShape = (h, h) := by
      rw [gridShape_congr (FRI.advance^[n] s) s hsh, hgs]
    simp only [FRI.next] at hnext
    by_cases hc : (FRI.advance^[n] s).current_ring < (FRI.advance^[n] s).nbins
    · rw [if_pos hc] at hnext
      simp only [Option.some.injEq, Prod.mk.injEq] at hnext
      rw [← hnext.1] at hp
      simp only [whereMask, Set.mem_setOf_eq, hgs2] at hp
      exact ⟨hp.1, hp.2.1⟩
    · rw [if_neg hc] at hnext
      cases hnext

/-- Witness for C3 at the square shape `(4, 4)` with `d_bin = 1`. -/
theorem frc_C3_witness :
    mkFRI [4, 4] 1 = .ok fri44 ∧
    fri44.gridShape = (4, 4) ∧
    (fri44.Y 2 3 = (3 : ℤ) - ((4 / 2 : ℕ) : ℤ) ∧
     fri44.X 2 3 = (2 : ℤ) - ((4 / 2 : ℕ) : ℤ)) :=
  ⟨by decide, (frc_C3 4 4 1 fri44 (by decide)).1,
    (frc_C3 4 4 1 fri44 (by decide)).2.1 2 3 (by decide) (by decide)⟩

/-- Counterexample for C3 as stated: for the non-square shape `(2, 4)` the
grid arrays have shape `(4, 2)`, not the image shape `(2, 4)`, and the
first iteration step emits the coordinate pair `(2, 1)` whose first
component is not a valid row index for the image (height 2). -/
theorem frc_C3_cex :
    mkFRI [2, 4] 1 = .ok fri24 ∧
    fri24.gridShape = (4, 2) ∧ ((4, 2) : ℕ × ℕ) ≠ ((2, 4) : ℕ × ℕ) ∧
    (∃ out : Set (ℕ × ℕ), ∃ k : ℤ, ∃ t : FRI,
      fri24.next = some (out, k, t) ∧
      ((2, 1) : ℕ × ℕ) ∈ out ∧ ¬ ((2 : ℕ) < 2)) := by
  have hnext : fri24.next =
      some (whereMask fri24.gridShape
              (fri24.get_points_on_ring ((fri24.current_ring * fri24.d_bin : ℤ) : ℝ)
                (((fri24.current_ring + 1) * fri24.d_bin : ℤ) : ℝ)),
            fri24.current_ring, fri24.advance) := by
    simp only [FRI.next]
    rw [if_pos (by decide)]
  refine ⟨by decide, by decide, by decide, _, _, _, hnext, ?_, by omega⟩
  simp only [whereMask, Set.mem_setOf_eq]
  refine ⟨by decide, by decide, ?_, ?_⟩
  · rw [r24_21]
    norm_num [fri24]
  · rw [r24_21]
    norm_num [fri24]

/-- Claim C10 (amended): for a freshly constructed sectioned iterator,
before any assignment to the angle property, the cached mask is
`get_angle_sector(0, d_bin)` — true exactly where the angle field `Phi`
lies in `[0, d_bin)` or `[π, d_bin + π)`, with the ring thickness `d_bin`
used directly as a radian bound — but it is not independent of the
`d_angle` constructor argument: `Phi` itself is shifted by `d_angle / 2`,
so the pixel mask still varies with `d_angle`. -/
theorem frc_C10 (shape : List ℕ) (d : ℤ) (a : ℝ) (s : SFRI)
    (hmk : mkSFRI shape d a = .ok s) :
    s.angle_sector = angleSectorFun s.toFRI s.d_angle 0 ((d : ℤ) : ℝ) ∧
    s._angle = 0 ∧
    s.d_angle = degrees_to_radians a ∧
    (∀ i j : ℕ, s.angle_sector i j ↔
      ((0 ≤ s.phi i j ∧ s.phi i j < ((d : ℤ) : ℝ)) ∨
       (Real.pi ≤ s.phi i j ∧ s.phi i j < ((d : ℤ) : ℝ) + Real.pi))) := by
  unfold mkSFRI at hmk
  cases hm : mkFRI shape d with
  | error e =>
      rw [hm] at hmk
      cases hmk
  | ok b =>
      rw [hm] at hmk
      have hs : s =
          { toFRI := b
            d_angle := degrees_to_radians a
            _angle := 0
            angle_sector := angleSectorFun b (degrees_to_radians a) 0 ((d : ℤ) : ℝ) } :=
        (Except.ok.inj hmk).symm
      subst hs
      refine ⟨rfl, rfl, rfl, ?_⟩
      intro i j
      simp only [angleSectorFun, SFRI.phi, zero_add]

/-- Witness for C10 at `shape = (4, 4)`, `d_bin = 1`, `d_angle = 90`. -/
theorem frc_C10_witness :
    mkSFRI [4, 4] 1 90 = .ok sfri44_90 ∧
    sfri44_90.angle_sector =
      angleSectorFun sfri44_90.toFRI sfri44_90.d_angle 0 (((1 : ℤ)) : ℝ) ∧
    sfri44_90._angle = 0 :=
  ⟨rfl, (frc_C10 [4, 4] 1 90 sfri44_90 rfl).1, (frc_C10 [4, 4] 1 90 sfri44_90 rfl).2.1⟩

/-- Counterexample for C10 as stated: two iterators with the same
`d_bin = 1` but different `d_angle` (90 and 360 degrees) have different
initial sector masks — they disagree at pixel `(3, 3)` — so the cached
mask is not independent of `d_angle`. -/
theorem frc_C10_cex :
    mkSFRI [4, 4] 1 90 = .ok sfri44_90 ∧
    mkSFRI [4, 4] 1 360 = .ok sfri44_360 ∧
    sfri44_90.d_bin = sfri44_360.d_bin ∧
    ¬ sfri44_90.angle_sector 3 3 ∧
    sfri44_360.angle_sector 3 3 := by
  have h3 := Real.pi_gt_three
  have h4 := Real.pi_lt_four
  refine ⟨rfl, rfl, rfl, ?_, ?_⟩
  · intro hc
    have hc2 : angleSectorFun fri44 (degrees_to_radians 90) 0 (((1 : ℤ)) : ℝ) 3 3 := hc
    simp only [angleSectorFun, phi44_90_33, zero_add] at hc2
    rcases hc2 with ⟨h1, h2⟩ | ⟨h1, h2⟩
    · push_cast at h2
      nlinarith
    · push_cast at h2
      nlinarith
  · show angleSectorFun fri44 (degrees_to_radians 360) 0 (((1 : ℤ)) : ℝ) 3 3
    simp only [angleSectorFun, phi44_360_33, zero_add]
    left
    constructor
    · positivity
    · push_cast
      nlinarith

/-- Claim C1 evaluated on the code at the failing input: with
`shape = (4, 4)`, `d_bin = 1`, `d_angle = 360` degrees and no prior angle
assignment, the ring-1 iteration step of the plain iterator emits pixel
`(2, 3)` but the sectioned iterator's ring-1 step does not — the cached
initial mask is `get_angle_sector(0, d_bin)`, not one giant sector — so
the sectioned per-ring output differs from the unsectioned output. -/
theorem frc_C1_eval :
    mkFRI [4, 4] 1 = .ok fri44 ∧
    mkSFRI [4, 4] 1 360 = .ok sfri44_360 ∧
    (∃ outB : Set (ℕ × ℕ), ∃ tB : FRI,
      (FRI.advance fri44).next = some (outB, 1, tB) ∧ ((2, 3) : ℕ × ℕ) ∈ outB) ∧
    (∃ outS : Set (ℕ × ℕ), ∃ tS : SFRI,
      (SFRI.advance sfri44_360).next = some (outS, 1, tS) ∧
        ((2, 3) : ℕ × ℕ) ∉ outS) := by
  refine ⟨by decide, rfl, ?_, ?_⟩
  · refine ⟨whereMask (FRI.advance fri44).gridShape
        ((FRI.advance fri44).get_points_on_ring
          (((FRI.advance fri44).current_ring * (FRI.advance fri44).d_bin : ℤ) : ℝ)
          ((((FRI.advance fri44).current_ring + 1) * (FRI.advance fri44).d_bin : ℤ) : ℝ)),
      (FRI.advance fri44).advance, ?_, ?_⟩
    · simp only [FRI.next]
      rw [if_pos (by decide)]
      rfl
    · simp only [whereMask, Set.mem_setOf_eq]
      have hr : (FRI.advance fri44).r 2 3 = 1 := r44_23
      refine ⟨by decide, by decide, ?_, ?_⟩
      · rw [show (FRI.advance fri44).current_ring * (FRI.advance fri44).d_bin = 1
          from by decide, hr]
        norm_num
      · rw [show ((FRI.advance fri44).current_ring + 1) * (FRI.advance fri44).d_bin = 2
          from by decide, hr]
        norm_num
  · refine ⟨whereMask (SFRI.advance sfri44_360).gridShape
        (fun i j => (SFRI.advance sfri44_360).get_points_on_ring
          (((SFRI.advance sfri44_360).current_ring * (SFRI.advance sfri44_360).d_bin : ℤ) : ℝ)
          ((((SFRI.advance sfri44_360).current_ring + 1) * (SFRI.advance sfri44_360).d_bin : ℤ) : ℝ) i j ∧
          (SFRI.advance sfri44_360).angle_sector i j),
      SFRI.advance (SFRI.advance sfri44_360), ?_, ?_⟩
    · simp only [SFRI.next]
      rw [if_pos (by decide)]
      rfl
    · intro hp
      simp only [whereMask, Set.mem_setOf_eq] at hp
      have hsec : angleSectorFun fri44 (degrees_to_radians 360) 0 (((1 : ℤ)) : ℝ) 2 3 :=
        hp.2.2.2
      simp only [angleSectorFun, phi44_360_23, zero_add] at hsec
      rcases hsec with ⟨h1, h2⟩ | ⟨h1, h2⟩
      · push_cast at h2
        nlinarith [Real.pi_gt_three]
      · nlinarith [Real.pi_gt_three]

/-- Claim C2 evaluated on the code at the failing input: `__getitem__`
passes its angle arguments to `get_angle_sector` without converting
degrees to radians, so `query(1, 2, 0, 90)` on the `(4, 4)`, `d_bin = 1`,
`d_angle = 90` iterator returns pixel `(2, 3)` (its angle field is
`7π/4 < 90` radians), while under the spec's degree interpretation
(sector `[0°, 90°)` with its mirror) that pixel is excluded. -/
theorem frc_C2_eval :
    mkSFRI [4, 4] 1 90 = .ok sfri44_90 ∧
    ((2, 3) : ℕ × ℕ) ∈ (sfri44_90.getitem (1, 2, 0, 90)).1 ∧
    ((2, 3) : ℕ × ℕ) ∉ (sfri44_90.querySpec (1, 2, 0, 90)).1 := by
  have h3 := Real.pi_gt_three
  have h4 := Real.pi_lt_four
  have hr : sfri44_90.r 2 3 = 1 := r44_23
  refine ⟨rfl, ?_, ?_⟩
  · show ((2, 3) : ℕ × ℕ) ∈ whereMask sfri44_90.gridShape
      (fun i j => sfri44_90.get_points_on_ring 1 2 i j ∧
        sfri44_90.get_angle_sector 0 90 i j)
    simp only [whereMask, Set.mem_setOf_eq]
    refine ⟨by decide, by decide, ⟨?_, ?_⟩, ?_⟩
    · rw [hr]
    · rw [hr]; norm_num
    · show angleSectorFun fri44 (degrees_to_radians 90) 0 90 2 3
      simp only [angleSectorFun, phi44_90_23]
      left
      constructor
      · positivity
      · nlinarith
  · intro hp
    simp only [SFRI.querySpec, whereMask, Set.mem_setOf_eq] at hp
    have hsec : angleSectorFun fri44 (degrees_to_radians 90) (degrees_to_radians 0)
        (degrees_to_radians 90) 2 3 := hp.2.2.2
    simp only [angleSectorFun] at hsec
    rw [phi44_90_23] at hsec
    rw [d2r_zero, d2r_90] at hsec
    simp only [zero_add] at hsec
    rcases hsec with ⟨h1, h2⟩ | ⟨h1, h2⟩
    · nlinarith
    · nlinarith
